import Mathlib

/-!
# Verification of the LPC 17xx EEPROM character-device driver

Shallow embedding of `projects/eeprom/eeprom/eeprom.c`: the Page Engine
(`EEPROM_Read`, `EEPROM_WritePageRegister`, `EEPROM_EraseProgramPage`), the
timing configurator (`EEPROM_Init`), and the device facade
(`eeprom_open`, `eeprom_release`, `eeprom_llseek`, `eeprom_read`,
`eeprom_write`), together with theorems settling the specification claims.

Modelling conventions:
* machine integers are `Nat`/`Int` with explicit `% 2 ^ w` where the C code
  can wrap (`size_t` is 32-bit and `loff_t` is a signed 64-bit `long long`
  on this 32-bit ARM target; `u16` truncates to 16 bits);
* the EEPROM non-volatile array and user buffers are total functions
  `Nat → Nat` from byte index to byte value;
* the hardware side of a Page Engine operation (successive `RDATA` reads
  delivering successive device bytes from the programmed address, the page
  register staging bytes until `ERASE_PRG_PAGE` commits them) is modelled
  functionally, following the peripheral semantics described in the spec;
* the `access_ok` guard of `eeprom_read`/`eeprom_write` is not modelled:
  every claim presupposes a valid user buffer;
* busy-waiting on `INTSTAT` always terminates (the peripheral completes),
  so `EEPROM_WaitForIntStatus` appears only as a recorded register action.
-/

namespace Eeprom

/-- `#define EEPROM_PAGE_SIZE 64` -/
def EEPROM_PAGE_SIZE : Nat := 64

/-- `#define EEPROM_PAGE_NUM 63` -/
def EEPROM_PAGE_NUM : Nat := 63

/-- Device capacity in bytes: `EEPROM_PAGE_SIZE * EEPROM_PAGE_NUM = 4032`. -/
def CAPACITY : Nat := EEPROM_PAGE_SIZE * EEPROM_PAGE_NUM

/-- `#define EEPROM_CMD_ERASE_PRG_PAGE (6)` -/
def EEPROM_CMD_ERASE_PRG_PAGE : Nat := 6

/-- `#define EEPROM_CMD_8BITS_READ (0)` -/
def EEPROM_CMD_8BITS_READ : Nat := 0

/-- `#define EEPROM_CMD_8BITS_WRITE (3)` -/
def EEPROM_CMD_8BITS_WRITE : Nat := 3

/-- `#define EEPROM_CMD_RDPREFETCH (1 << 3)` -/
def EEPROM_CMD_RDPREFETCH : Nat := 1 <<< 3

/-- `#define EEPROM_INT_ENDOFRW (1 << 26)` -/
def EEPROM_INT_ENDOFRW : Nat := 1 <<< 26

/-- `#define EEPROM_INT_ENDOFPROG (1 << 28)` -/
def EEPROM_INT_ENDOFPROG : Nat := 1 <<< 28

/-- Linux `-EINVAL` as returned by the driver. -/
def EINVAL : Int := 22

/-- Linux `-EBUSY` as returned by the driver. -/
def EBUSY : Int := 16

/-- Linux `SEEK_SET`. -/
def SEEK_SET : Int := 0

/-- Linux `SEEK_CUR`. -/
def SEEK_CUR : Int := 1

/-- Linux `SEEK_END`. -/
def SEEK_END : Int := 2

/-! ## Register-action level of the Page Engine

Each primitive register access of `eeprom.c` (`EEPROM_ClearIntStatus`,
`EEPROM_SetAddr`, `EEPROM_SetCmd`, `EEPROM_WaitForIntStatus`) is recorded
as an action, so that the order and arguments of the MMIO traffic of a
Page Engine operation can be stated. -/

/-- One register-interface action of the driver.
`clearIntStatus m` is `LPC_EEPROM->INTSTATCLR = m` (write-1-to-clear);
`setAddr p o` is `LPC_EEPROM->ADDR = (p << 6) | o`;
`setCmd c` is `LPC_EEPROM->CMD = c`;
`waitForIntStatus m` is the `EEPROM_WaitForIntStatus` poll loop on
`INTSTAT` followed by its final `INTSTATCLR = m`. -/
inductive RegAction where
  | clearIntStatus (mask : Nat)
  | setAddr (pageAddr pageOffset : Nat)
  | setCmd (cmd : Nat)
  | waitForIntStatus (mask : Nat)
deriving DecidableEq, Repr

/-- Register actions of `EEPROM_EraseProgramPage(u16 pageAddr)`, in program
order (byte-transfer actions of other operations are not needed here):

    EEPROM_ClearIntStatus(EEPROM_CMD_ERASE_PRG_PAGE);
    EEPROM_SetAddr(pageAddr, 0);
    EEPROM_SetCmd(EEPROM_CMD_ERASE_PRG_PAGE);
    EEPROM_WaitForIntStatus(EEPROM_INT_ENDOFPROG);

The `pageAddr` argument is a `u16`, hence the `% 2 ^ 16`. -/
def EEPROM_EraseProgramPage (pageAddr : Nat) : List RegAction :=
  [ .clearIntStatus EEPROM_CMD_ERASE_PRG_PAGE,
    .setAddr (pageAddr % 2 ^ 16) 0,
    .setCmd EEPROM_CMD_ERASE_PRG_PAGE,
    .waitForIntStatus EEPROM_INT_ENDOFPROG ]

/-! ## Functional level of the Page Engine -/

/-- Peripheral state: the non-volatile byte array and the internal page
register (the staging buffer filled by 8-bit writes and committed to a
page by `ERASE_PRG_PAGE`). -/
structure PE_State where
  dev : Nat → Nat
  pageReg : Nat → Nat

/-- Functional model of `EEPROM_Read(pageOffset, pageAddr, pData, byteNum)`:
after `SetAddr(pageAddr, pageOffset)` and the 8-bit read command with
pre-fetch, the `byteNum` successive `RDATA` reads deliver the device bytes
at linear addresses `pageAddr*64 + pageOffset + i` (the `ADDR` encoding
`(pageAddr << 6) | pageOffset` is the linear address for `pageOffset < 64`,
which holds at every call site), stored at `pData[i]`.  Returns the updated
buffer and the loop counter `i = byteNum`. -/
def EEPROM_Read (dev : Nat → Nat) (pageOffset pageAddr : Nat)
    (pData : Nat → Nat) (byteNum : Nat) : (Nat → Nat) × Nat :=
  (fun i => if i < byteNum then dev (pageAddr * 64 + pageOffset + i) else pData i,
   byteNum)

/-- Functional model of `EEPROM_WritePageRegister(pageOffset, pData, byteNum)`:
after `SetAddr(0, pageOffset)` and the 8-bit write command, the `byteNum`
successive `WDATA` writes store `pData[i]` into the page register at offset
`pageOffset + i`; bytes of the page register outside the written range keep
their previous content.  Returns the new state and the counter `byteNum`. -/
def EEPROM_WritePageRegister (s : PE_State) (pageOffset : Nat)
    (pData : Nat → Nat) (byteNum : Nat) : PE_State × Nat :=
  ({ s with
     pageReg := fun j =>
       if pageOffset ≤ j ∧ j < pageOffset + byteNum then pData (j - pageOffset)
       else s.pageReg j },
   byteNum)

/-- Functional effect of `EEPROM_EraseProgramPage(pageAddr)` (a `u16`
argument): the 64 bytes of the page register are committed to non-volatile
page `pageAddr % 2^16`. -/
def eraseProgramPageFn (s : PE_State) (pageAddr : Nat) : PE_State :=
  let p := pageAddr % 2 ^ 16
  { s with
    dev := fun a =>
      if p * 64 ≤ a ∧ a < p * 64 + 64 then s.pageReg (a - p * 64) else s.dev a }

/-- One Page Engine call issued by the stream-translation loops of
`eeprom_read`/`eeprom_write`, with its arguments. -/
inductive PECall where
  | readPage (page pageOffset len : Nat)
  | writePageReg (pageOffset len : Nat)
  | erasePage (page : Nat)
deriving DecidableEq, Repr

/-! ## Stream translator: `eeprom_read` -/

/-- Result of `eeprom_read`: the user buffer after the call, the return
value (bytes transferred), the file position after the call, and the list
of Page Engine calls issued. -/
structure ReadRes where
  buf : Nat → Nat
  ret : Nat
  pos : Nat
  trace : List PECall

/-- The `for (to_read = length; to_read > 0; to_read -= read_bytes)` loop of
`eeprom_read`, structurally recursive on a fuel argument (each iteration
transfers `read_bytes ≥ 1`, so `to_read` itself is an upper bound on the
iteration count and `readLoop` below passes it as the fuel).  Each
iteration computes `page = *offset >> 6` (truncated to `u16`),
`page_offset = *offset & 63`, `read_bytes = min(to_read, 64 - page_offset)`,
calls `EEPROM_Read(page_offset, page, buffer, read_bytes)` and advances
`*offset` — but NOT `buffer`: the source never advances the destination
pointer, so every chunk lands at the start of the user buffer. -/
def readLoopF (dev : Nat → Nat) :
    Nat → (Nat → Nat) → Nat → Nat → (Nat → Nat) × Nat × List PECall
  | 0, buf, pos, _ => (buf, pos, [])
  | fuel + 1, buf, pos, toRead =>
    if toRead = 0 then (buf, pos, [])
    else
      let page := pos / 64 % 2 ^ 16
      let pageOffset := pos % 64
      let readBytes :=
        if toRead > EEPROM_PAGE_SIZE - pageOffset then EEPROM_PAGE_SIZE - pageOffset
        else toRead
      let buf2 := (EEPROM_Read dev pageOffset page buf readBytes).1
      let r := readLoopF dev fuel buf2 (pos + readBytes) (toRead - readBytes)
      (r.1, r.2.1, .readPage page pageOffset readBytes :: r.2.2)

/-- The `eeprom_read` loop at file position `pos` with `to_read = toRead`. -/
def readLoop (dev buf : Nat → Nat) (pos toRead : Nat) :
    (Nat → Nat) × Nat × List PECall :=
  readLoopF dev toRead buf pos toRead

/-- `eeprom_read(filp, buffer, length, offset)` at file position `pos ≥ 0`
(the facade never calls it with a negative position).  The clamp

    remaining = (EEPROM_PAGE_SIZE*EEPROM_PAGE_NUM) - *offset;

computes a signed 64-bit difference and converts it to the 32-bit unsigned
`size_t`, hence the `% 2 ^ 32` on the mathematical difference. -/
def eeprom_read (dev : Nat → Nat) (buf : Nat → Nat) (length0 pos : Nat) :
    ReadRes :=
  let remaining : Nat := (((CAPACITY : Int) - (pos : Int)) % 2 ^ 32).toNat
  let length := if length0 > remaining then remaining else length0
  if length = 0 then ⟨buf, 0, pos, []⟩
  else
    let r := readLoop dev buf pos length
    ⟨r.1, length, r.2.1, r.2.2⟩

/-! ## Stream translator: `eeprom_write` -/

/-- Result of `eeprom_write`: the peripheral state after the call, the
return value, the file position after the call, and the Page Engine call
trace. -/
structure WriteRes where
  pe : PE_State
  ret : Nat
  pos : Nat
  trace : List PECall

/-- The `for (to_write = length; to_write > 0; to_write -= write_bytes)`
loop of `eeprom_write`, structurally recursive on a fuel argument (each
iteration transfers `write_bytes ≥ 1`, so `to_write` bounds the iteration
count and `writeLoop` below passes it as the fuel).  Each iteration
computes `page = *offset >> 6` (truncated to `u16`),
`page_offset = *offset & 63`, `write_bytes = min(to_write, 64 - page_offset)`,
calls `EEPROM_WritePageRegister(page_offset, buffer, write_bytes)` then
`EEPROM_EraseProgramPage(page)`, and advances both `*offset` and `buffer`
(`bufBase` is the current offset of the advancing source pointer into the
original user buffer). -/
def writeLoopF (buf : Nat → Nat) :
    Nat → PE_State → Nat → Nat → Nat → PE_State × Nat × List PECall
  | 0, s, _, pos, _ => (s, pos, [])
  | fuel + 1, s, bufBase, pos, toWrite =>
    if toWrite = 0 then (s, pos, [])
    else
      let page := pos / 64 % 2 ^ 16
      let pageOffset := pos % 64
      let writeBytes :=
        if toWrite > EEPROM_PAGE_SIZE - pageOffset then EEPROM_PAGE_SIZE - pageOffset
        else toWrite
      let s2 := (EEPROM_WritePageRegister s pageOffset (fun j => buf (bufBase + j)) writeBytes).1
      let s3 := eraseProgramPageFn s2 page
      let r := writeLoopF buf fuel s3 (bufBase + writeBytes) (pos + writeBytes) (toWrite - writeBytes)
      (r.1, r.2.1,
       .writePageReg pageOffset writeBytes :: .erasePage page :: r.2.2)

/-- The `eeprom_write` loop at file position `pos` with `to_write = toWrite`. -/
def writeLoop (s : PE_State) (buf : Nat → Nat) (bufBase pos toWrite : Nat) :
    PE_State × Nat × List PECall :=
  writeLoopF buf toWrite s bufBase pos toWrite

/-- `eeprom_write(filp, buffer, length, offset)` at file position `pos ≥ 0`,
with the same `size_t` clamp as `eeprom_read`. -/
def eeprom_write (s : PE_State) (buf : Nat → Nat) (length0 pos : Nat) :
    WriteRes :=
  let remaining : Nat := (((CAPACITY : Int) - (pos : Int)) % 2 ^ 32).toNat
  let length := if length0 > remaining then remaining else length0
  if length = 0 then ⟨s, 0, pos, []⟩
  else
    let r := writeLoop s buf 0 pos length
    ⟨r.1, length, r.2.1, r.2.2⟩

/-! ## Timing configurator -/

/-- The registers programmed by `EEPROM_Init`. -/
structure Timing where
  pwrdwn : Nat
  clkdiv : Nat
  wstate : Nat
deriving DecidableEq, Repr

/-- `EEPROM_Init`: disable power-down, program
`CLKDIV = cclk / 375000 - 1` and the wait-state register

    val  = ((((cclk / 1000000) * 15) / 1000) + 1);
    val |= (((((cclk / 1000000) * 55) / 1000) + 1) << 8);
    val |= (((((cclk / 1000000) * 35) / 1000) + 1) << 16);

where `cclk = lpc178x_clock_get(CLOCK_PCLK)` is a parameter here.  All
arithmetic is on `u32`, hence the explicit `% 2 ^ 32` (in particular the
subtraction in `CLKDIV` wraps when `cclk < 375000`). -/
def EEPROM_Init (cclk : Nat) : Timing :=
  let mhz := (cclk / 1000000) % 2 ^ 32
  let ws1 := ((mhz * 15) % 2 ^ 32 / 1000 + 1) % 2 ^ 32
  let ws2 := ((mhz * 55) % 2 ^ 32 / 1000 + 1) % 2 ^ 32
  let ws3 := ((mhz * 35) % 2 ^ 32 / 1000 + 1) % 2 ^ 32
  { pwrdwn := 0,
    clkdiv := (cclk / 375000 % 2 ^ 32 + (2 ^ 32 - 1)) % 2 ^ 32,
    wstate := (ws1 ||| (ws2 <<< 8) % 2 ^ 32 ||| (ws3 <<< 16) % 2 ^ 32) % 2 ^ 32 }

/-! ## Device facade -/

/-- `eeprom_llseek(filp, offset, whence)`: the `switch` computes `newpos`
(`SEEK_SET`: `offset`; `SEEK_CUR`: `f_pos + offset`; `SEEK_END`:
`EEPROM_PAGE_SIZE * EEPROM_PAGE_NUM + offset`; anything else returns
`-EINVAL`); a negative `newpos` returns `-EINVAL` without touching
`f_pos`, otherwise `f_pos = newpos` is stored and returned.  Returns
`(return value, f_pos after the call)`.  `loff_t` values are modelled as
mathematical integers (signed-overflow behaviour is undefined in C and is
not modelled). -/
def eeprom_llseek (pos offset whence : Int) : Int × Int :=
  match (if whence = SEEK_SET then some offset
         else if whence = SEEK_CUR then some (pos + offset)
         else if whence = SEEK_END then some ((CAPACITY : Int) + offset)
         else none) with
  | none => (-EINVAL, pos)
  | some newpos => if newpos < 0 then (-EINVAL, pos) else (newpos, newpos)

/-- Driver-visible state of one session: the `eeprom_lock` counter, the
file position of the open handle, the peripheral state and the timing
registers. -/
structure Sess where
  lock : Nat
  pos : Int
  pe : PE_State
  timing : Timing

/-- `eeprom_open`: `if (eeprom_lock++ > 0) return -EBUSY;` — the counter is
incremented whether or not the test fails, the old value decides success.
Nothing else of the session is touched. -/
def eeprom_open (s : Sess) : Sess × Int :=
  if s.lock > 0 then ({ s with lock := s.lock + 1 }, -EBUSY)
  else ({ s with lock := s.lock + 1 }, 0)

/-- `eeprom_release`: `eeprom_lock = 0;` and return 0, unconditionally. -/
def eeprom_release (s : Sess) : Sess × Int :=
  ({ s with lock := 0 }, 0)

/-- One user-space operation on the device. -/
inductive Op where
  | opOpen
  | opRelease
  | opSeek (offset whence : Int)
  | opRead (len : Nat)
  | opWrite (buf : Nat → Nat) (len : Nat)

/-- Effect of one operation on the session state.  Reads and writes are
issued at the current (nonnegative) file position; the destination of a
read is irrelevant to the session state, so a zero buffer is passed. -/
def step (s : Sess) : Op → Sess
  | .opOpen => (eeprom_open s).1
  | .opRelease => (eeprom_release s).1
  | .opSeek offset whence => { s with pos := (eeprom_llseek s.pos offset whence).2 }
  | .opRead len => { s with pos := ((eeprom_read s.pe.dev (fun _ => 0) len s.pos.toNat).pos : Int) }
  | .opWrite buf len =>
      let r := eeprom_write s.pe buf len s.pos.toNat
      { s with pe := r.pe, pos := (r.pos : Int) }

/-- A freshly opened handle: lock held, file position 0, blank device,
timing as programmed at module init for a 60 MHz peripheral clock. -/
def initSess : Sess :=
  { lock := 1, pos := 0, pe := ⟨fun _ => 0, fun _ => 0⟩, timing := EEPROM_Init 60000000 }

/-- Run a sequence of operations from a freshly opened handle. -/
def runOps (ops : List Op) : Sess :=
  ops.foldl step initSess

/-! ## Spec-side description of the write loop (refinement target) -/

/-- The Page Engine calls prescribed by the spec's §4.4 write loop
(a second definition following the spec's words, to be compared with the
`writeLoop` trace): while remaining > 0, `page = pos / P`,
`page_offset = pos mod P`, `chunk = min(remaining, P − page_offset)`, one
`write_page_register(page_offset, chunk)` followed by one
`erase_program_page(page)`, then advance. -/
def specWriteTraceF : Nat → Nat → Nat → List PECall
  | 0, _, _ => []
  | fuel + 1, pos, remaining =>
    if remaining = 0 then []
    else
      let page := pos / EEPROM_PAGE_SIZE
      let pageOffset := pos % EEPROM_PAGE_SIZE
      let chunk := min remaining (EEPROM_PAGE_SIZE - pageOffset)
      .writePageReg pageOffset chunk :: .erasePage page ::
        specWriteTraceF fuel (pos + chunk) (remaining - chunk)

/-- The spec's write loop for a request of `remaining` bytes at position
`pos` (`remaining` also serves as structural fuel: each iteration consumes
`chunk ≥ 1` bytes). -/
def specWriteTrace (pos remaining : Nat) : List PECall :=
  specWriteTraceF remaining pos remaining

/-- The pages receiving an `ERASE_PROGRAM` command in a Page Engine call
trace, in order. -/
def erasedPages (t : List PECall) : List Nat :=
  t.filterMap fun c =>
    match c with
    | .erasePage p => some p
    | _ => none

/-! ## Helper lemmas -/

/-- Preconditions of a Page Engine call: page index below `EEPROM_PAGE_NUM`,
page offset inside the page, transfer contained in a single page. -/
def callOK : PECall → Prop
  | .readPage page pageOffset len =>
      page < EEPROM_PAGE_NUM ∧ pageOffset < EEPROM_PAGE_SIZE ∧
        pageOffset + len ≤ EEPROM_PAGE_SIZE
  | .writePageReg pageOffset len =>
      pageOffset < EEPROM_PAGE_SIZE ∧ pageOffset + len ≤ EEPROM_PAGE_SIZE
  | .erasePage page => page < EEPROM_PAGE_NUM

instance : DecidablePred callOK := fun c =>
  match c with
  | .readPage page pageOffset len =>
      inferInstanceAs (Decidable (page < EEPROM_PAGE_NUM ∧
        pageOffset < EEPROM_PAGE_SIZE ∧ pageOffset + len ≤ EEPROM_PAGE_SIZE))
  | .writePageReg pageOffset len =>
      inferInstanceAs (Decidable (pageOffset < EEPROM_PAGE_SIZE ∧
        pageOffset + len ≤ EEPROM_PAGE_SIZE))
  | .erasePage page => inferInstanceAs (Decidable (page < EEPROM_PAGE_NUM))

/-- An operation whose seek target is statically within the device: any
open, release, read or write, and seeks that are `SEEK_SET` to a target in
`[0, C]`. -/
def goodOp : Op → Prop
  | .opSeek offset whence => whence = SEEK_SET ∧ 0 ≤ offset ∧ offset ≤ (CAPACITY : Int)
  | _ => True

instance : DecidablePred goodOp := fun op =>
  match op with
  | .opSeek offset whence =>
      inferInstanceAs (Decidable (whence = SEEK_SET ∧ 0 ≤ offset ∧
        offset ≤ (CAPACITY : Int)))
  | .opOpen => inferInstanceAs (Decidable True)
  | .opRelease => inferInstanceAs (Decidable True)
  | .opRead _ => inferInstanceAs (Decidable True)
  | .opWrite _ _ => inferInstanceAs (Decidable True)

theorem if_gt_min (a b : Nat) : (if a > b then b else a) = min a b := by
  split <;> omega

theorem readLoopF_pos (dev : Nat → Nat) :
    ∀ fuel buf pos toRead, toRead ≤ fuel →
      (readLoopF dev fuel buf pos toRead).2.1 = pos + toRead := by
  intro fuel
  induction fuel with
  | zero =>
    intro buf pos toRead h
    have h0 : toRead = 0 := by omega
    subst h0
    rfl
  | succ fuel ih =>
    intro buf pos toRead h
    by_cases h0 : toRead = 0
    · subst h0; rfl
    · simp only [readLoopF, if_neg h0, EEPROM_PAGE_SIZE, if_gt_min]
      rw [ih]
      · omega
      · omega

theorem readLoopF_trace (dev : Nat → Nat) :
    ∀ fuel buf pos toRead, toRead ≤ fuel → pos + toRead ≤ CAPACITY →
      ∀ c ∈ (readLoopF dev fuel buf pos toRead).2.2, callOK c := by
  intro fuel
  induction fuel with
  | zero =>
    intro buf pos toRead h _ c hc
    have h0 : toRead = 0 := by omega
    subst h0
    simp [readLoopF] at hc
  | succ fuel ih =>
    intro buf pos toRead h hcap c hc
    simp only [CAPACITY, EEPROM_PAGE_SIZE, EEPROM_PAGE_NUM] at hcap
    by_cases h0 : toRead = 0
    · subst h0; simp [readLoopF] at hc
    · simp only [readLoopF, if_neg h0, EEPROM_PAGE_SIZE, if_gt_min] at hc
      rcases List.mem_cons.mp hc with rfl | hmem
      · simp only [callOK, EEPROM_PAGE_NUM, EEPROM_PAGE_SIZE]
        refine ⟨by omega, by omega, by omega⟩
      · refine ih _ _ _ (by omega) ?_ c hmem
        simp only [CAPACITY, EEPROM_PAGE_SIZE, EEPROM_PAGE_NUM]
        omega

theorem writeLoopF_pos (buf : Nat → Nat) :
    ∀ fuel s bufBase pos toWrite, toWrite ≤ fuel →
      (writeLoopF buf fuel s bufBase pos toWrite).2.1 = pos + toWrite := by
  intro fuel
  induction fuel with
  | zero =>
    intro s bufBase pos toWrite h
    have h0 : toWrite = 0 := by omega
    subst h0
    rfl
  | succ fuel ih =>
    intro s bufBase pos toWrite h
    by_cases h0 : toWrite = 0
    · subst h0; rfl
    · simp only [writeLoopF, if_neg h0, EEPROM_PAGE_SIZE, if_gt_min]
      rw [ih]
      · omega
      · omega

theorem writeLoopF_trace_ok (buf : Nat → Nat) :
    ∀ fuel s bufBase pos toWrite, toWrite ≤ fuel → pos + toWrite ≤ CAPACITY →
      ∀ c ∈ (writeLoopF buf fuel s bufBase pos toWrite).2.2, callOK c := by
  intro fuel
  induction fuel with
  | zero =>
    intro s bufBase pos toWrite h _ c hc
    have h0 : toWrite = 0 := by omega
    subst h0
    simp [writeLoopF] at hc
  | succ fuel ih =>
    intro s bufBase pos toWrite h hcap c hc
    simp only [CAPACITY, EEPROM_PAGE_SIZE, EEPROM_PAGE_NUM] at hcap
    by_cases h0 : toWrite = 0
    · subst h0; simp [writeLoopF] at hc
    · simp only [writeLoopF, if_neg h0, EEPROM_PAGE_SIZE, if_gt_min] at hc
      rcases List.mem_cons.mp hc with rfl | hc2
      · simp only [callOK, EEPROM_PAGE_SIZE]
        exact ⟨by omega, by omega⟩
      · rcases List.mem_cons.mp hc2 with rfl | hmem
        · simp only [callOK, EEPROM_PAGE_NUM]
          omega
        · refine ih _ _ _ _ (by omega) ?_ c hmem
          simp only [CAPACITY, EEPROM_PAGE_SIZE, EEPROM_PAGE_NUM]
          omega

theorem specWriteTraceF_zero (fuel pos : Nat) : specWriteTraceF fuel pos 0 = [] := by
  cases fuel <;> simp [specWriteTraceF]

theorem writeLoopF_trace_spec (buf : Nat → Nat) :
    ∀ fuel s bufBase pos toWrite, toWrite ≤ fuel → pos + toWrite ≤ CAPACITY →
      (writeLoopF buf fuel s bufBase pos toWrite).2.2 = specWriteTraceF fuel pos toWrite := by
  intro fuel
  induction fuel with
  | zero =>
    intro s bufBase pos toWrite h _
    have h0 : toWrite = 0 := by omega
    subst h0
    rfl
  | succ fuel ih =>
    intro s bufBase pos toWrite h hcap
    by_cases h0 : toWrite = 0
    · subst h0; rfl
    · simp only [writeLoopF, specWriteTraceF, if_neg h0, EEPROM_PAGE_SIZE, if_gt_min,
        min_comm (64 - pos % 64)]
      have hpg : pos / 64 % 2 ^ 16 = pos / 64 := by
        simp only [CAPACITY, EEPROM_PAGE_SIZE, EEPROM_PAGE_NUM] at hcap
        omega
      rw [hpg, ih]
      · omega
      · exact le_trans (by omega) hcap

theorem erasedPages_writePageReg (o l : Nat) (t : List PECall) :
    erasedPages (.writePageReg o l :: t) = erasedPages t := rfl

theorem erasedPages_erasePage (p : Nat) (t : List PECall) :
    erasedPages (.erasePage p :: t) = p :: erasedPages t := rfl

theorem erasedPages_specWriteTraceF :
    ∀ fuel pos remaining, remaining ≤ fuel → 0 < remaining →
      erasedPages (specWriteTraceF fuel pos remaining) =
        List.range' (pos / 64) ((pos + remaining - 1) / 64 + 1 - pos / 64) := by
  intro fuel
  induction fuel with
  | zero => intro pos r h h0; omega
  | succ fuel ih =>
    intro pos r h h0
    have h0' : ¬r = 0 := by omega
    simp only [specWriteTraceF, if_neg h0', EEPROM_PAGE_SIZE]
    rw [erasedPages_writePageReg, erasedPages_erasePage]
    by_cases hend : r ≤ 64 - pos % 64
    · have hmin : min r (64 - pos % 64) = r := by omega
      rw [hmin]
      have hz : r - r = 0 := by omega
      rw [hz, specWriteTraceF_zero]
      have hq : (pos + r - 1) / 64 = pos / 64 := by omega
      rw [hq]
      have hone : pos / 64 + 1 - pos / 64 = 1 := by omega
      rw [hone]
      rfl
    · have hmin : min r (64 - pos % 64) = 64 - pos % 64 := by omega
      rw [hmin, ih _ _ (by omega) (by omega)]
      have h1 : (pos + (64 - pos % 64)) / 64 = pos / 64 + 1 := by omega
      have h2 : pos + (64 - pos % 64) + (r - (64 - pos % 64)) - 1 = pos + r - 1 := by
        omega
      rw [h1, h2]
      have h3 : (pos + r - 1) / 64 + 1 - pos / 64 =
          ((pos + r - 1) / 64 + 1 - (pos / 64 + 1)) + 1 := by omega
      rw [h3, List.range'_succ]

theorem eeprom_read_spec (dev buf : Nat → Nat) (len pos : Nat) (h : pos ≤ CAPACITY) :
    eeprom_read dev buf len pos =
      ⟨(readLoop dev buf pos (min len (CAPACITY - pos))).1,
       min len (CAPACITY - pos),
       pos + min len (CAPACITY - pos),
       (readLoop dev buf pos (min len (CAPACITY - pos))).2.2⟩ := by
  have hrem : (((CAPACITY : Int) - (pos : Int)) % 2 ^ 32).toNat = CAPACITY - pos := by
    simp only [CAPACITY, EEPROM_PAGE_SIZE, EEPROM_PAGE_NUM] at h ⊢
    omega
  unfold eeprom_read
  simp only [hrem, if_gt_min]
  split
  · next h0 =>
    rw [h0]
    simp [readLoop, readLoopF]
  · next h0 =>
    simp only [readLoop, ReadRes.mk.injEq, true_and, and_true]
    rw [readLoopF_pos dev _ _ _ _ (le_refl _)]

theorem eeprom_write_spec (s : PE_State) (buf : Nat → Nat) (len pos : Nat)
    (h : pos ≤ CAPACITY) :
    eeprom_write s buf len pos =
      ⟨(writeLoop s buf 0 pos (min len (CAPACITY - pos))).1,
       min len (CAPACITY - pos),
       pos + min len (CAPACITY - pos),
       (writeLoop s buf 0 pos (min len (CAPACITY - pos))).2.2⟩ := by
  have hrem : (((CAPACITY : Int) - (pos : Int)) % 2 ^ 32).toNat = CAPACITY - pos := by
    simp only [CAPACITY, EEPROM_PAGE_SIZE, EEPROM_PAGE_NUM] at h ⊢
    omega
  unfold eeprom_write
  simp only [hrem, if_gt_min]
  split
  · next h0 =>
    rw [h0]
    simp [writeLoop, writeLoopF]
  · next h0 =>
    simp only [writeLoop, WriteRes.mk.injEq, true_and, and_true]
    rw [writeLoopF_pos buf _ _ _ _ _ (le_refl _)]

theorem eeprom_llseek_set (pos offset : Int) (h : 0 ≤ offset) :
    eeprom_llseek pos offset SEEK_SET = (offset, offset) := by
  unfold eeprom_llseek
  rw [if_pos rfl]
  show (if offset < 0 then (-EINVAL, pos) else (offset, offset)) = (offset, offset)
  rw [if_neg (by omega)]

theorem step_pos_nonneg (s : Sess) (op : Op) (h : 0 ≤ s.pos) :
    0 ≤ (step s op).pos := by
  cases op with
  | opOpen =>
    simp only [step, eeprom_open]
    split <;> exact h
  | opRelease => exact h
  | opSeek offset whence =>
    simp only [step]
    unfold eeprom_llseek
    split
    · exact h
    · split
      · exact h
      · next h2 => omega
  | opRead len =>
    simp only [step]
    exact Int.natCast_nonneg _
  | opWrite buf len =>
    simp only [step]
    exact Int.natCast_nonneg _

theorem step_pos_le (s : Sess) (op : Op) (hg : goodOp op) (h0 : 0 ≤ s.pos)
    (h : s.pos ≤ (CAPACITY : Int)) : (step s op).pos ≤ (CAPACITY : Int) := by
  cases op with
  | opOpen =>
    simp only [step, eeprom_open]
    split <;> exact h
  | opRelease => exact h
  | opSeek offset whence =>
    obtain ⟨hw, ho1, ho2⟩ := hg
    subst hw
    simp only [step, eeprom_llseek_set s.pos offset ho1]
    exact ho2
  | opRead len =>
    have hc : s.pos.toNat ≤ CAPACITY := by omega
    simp only [step, eeprom_read_spec _ _ _ _ hc]
    omega
  | opWrite buf len =>
    have hc : s.pos.toNat ≤ CAPACITY := by omega
    simp only [step, eeprom_write_spec _ _ _ _ hc]
    omega

theorem foldl_step_nonneg :
    ∀ (ops : List Op) (s : Sess), 0 ≤ s.pos → 0 ≤ (ops.foldl step s).pos := by
  intro ops
  induction ops with
  | nil => intro s h; exact h
  | cons op ops ih => intro s h; exact ih _ (step_pos_nonneg s op h)

theorem foldl_step_le :
    ∀ (ops : List Op) (s : Sess), (∀ op ∈ ops, goodOp op) → 0 ≤ s.pos →
      s.pos ≤ (CAPACITY : Int) → (ops.foldl step s).pos ≤ (CAPACITY : Int) := by
  intro ops
  induction ops with
  | nil => intro s _ _ h; exact h
  | cons op ops ih =>
    intro s hg h0 h
    exact ih _ (fun o ho => hg o (List.mem_cons_of_mem _ ho))
      (step_pos_nonneg s op h0)
      (step_pos_le s op (hg op (List.mem_cons_self _ _)) h0 h)

/-! ## Claim theorems -/

/-- **C1** (code bug): the claim says a read of `len` bytes at position
`pos` delivers `buf[i] = device[pos+i]` for every `i < len`, including
across page boundaries.  The code violates this: `eeprom_read` never
advances the destination pointer between page chunks, so every chunk lands
at offset 0 of the user buffer.  Concretely, with `device a = a`, reading
8 bytes at position 60 (spanning pages 0 and 1) leaves `buf[0] = 64` (the
second chunk overwrote the first; the claim requires `device[60] = 60`)
and `buf[4] = 9999` (the untouched initial buffer content; the claim
requires `device[64] = 64`). -/
theorem eeprom_read_cross_page_bug :
    (eeprom_read (fun a => a) (fun _ => 9999) 8 60).ret = 8 ∧
    (eeprom_read (fun a => a) (fun _ => 9999) 8 60).buf 0 = 64 ∧
    ¬(eeprom_read (fun a => a) (fun _ => 9999) 8 60).buf 0 = 60 ∧
    (eeprom_read (fun a => a) (fun _ => 9999) 8 60).buf 4 = 9999 ∧
    ¬(eeprom_read (fun a => a) (fun _ => 9999) 8 60).buf 4 = 64 := by
  decide

/-- **C2** (code bug): the claim says any read or write at `pos ≥ C`
transfers zero bytes and leaves the position unchanged.  This holds at
`pos = C` but fails for `pos > C` (reachable, since `eeprom_llseek`
accepts any nonnegative target): the clamp
`remaining = C - *offset` underflows in the unsigned 32-bit `size_t`, so
at position 5000 a 16-byte read and a 16-byte write both transfer 16
bytes, return 16 instead of 0, and advance the position to 5016. -/
theorem eeprom_rw_past_capacity_bug :
    (eeprom_llseek 0 5000 SEEK_SET).2 = 5000 ∧
    (eeprom_read (fun a => a) (fun _ => 0) 16 5000).ret = 16 ∧
    (eeprom_read (fun a => a) (fun _ => 0) 16 5000).pos = 5016 ∧
    (eeprom_write ⟨fun _ => 0, fun _ => 0⟩ (fun _ => 0) 16 5000).ret = 16 ∧
    (eeprom_write ⟨fun _ => 0, fun _ => 0⟩ (fun _ => 0) 16 5000).pos = 5016 ∧
    (eeprom_read (fun a => a) (fun _ => 0) 16 4032).ret = 0 := by
  decide

/-- **C3** (code bug): the claim says the first register action of the
erase-program operation clears the `END_OF_PROG` status bit (bit 28)
through the write-1-to-clear status register.  The code instead passes
the command constant `EEPROM_CMD_ERASE_PRG_PAGE = 6` to
`EEPROM_ClearIntStatus`, clearing bits 1–2 and leaving bit 28 untouched
(`6 &&& (1 <<< 28) = 0`). -/
theorem erase_program_first_action_mask_bug :
    (EEPROM_EraseProgramPage 0).head? =
      some (.clearIntStatus EEPROM_CMD_ERASE_PRG_PAGE) ∧
    EEPROM_CMD_ERASE_PRG_PAGE &&& EEPROM_INT_ENDOFPROG = 0 ∧
    ¬EEPROM_CMD_ERASE_PRG_PAGE = EEPROM_INT_ENDOFPROG := by
  decide

/-- **C4** (counterexample): from a freshly opened handle, the single
operation `seek(SET, 4033)` succeeds and leaves the file position at
4033 > C = 4032, refuting "the file position remains in [0, C] after
every operation". -/
theorem seek_beyond_capacity_counterexample :
    (runOps [.opSeek 4033 SEEK_SET]).pos = 4033 ∧
    ¬(runOps [.opSeek 4033 SEEK_SET]).pos ≤ (CAPACITY : Int) := by
  decide

/-- **C4** (amended): for every sequence of open, seek, read and write
operations from a freshly opened handle, the file position stays
nonnegative; and it stays in `[0, C]` provided every seek of the sequence
is a `SEEK_SET` to a target in `[0, C]`. -/
theorem file_position_invariant_amended (ops : List Op) :
    0 ≤ (runOps ops).pos ∧
      ((∀ op ∈ ops, goodOp op) → (runOps ops).pos ≤ (CAPACITY : Int)) := by
  constructor
  · exact foldl_step_nonneg ops initSess (by decide)
  · intro hg
    exact foldl_step_le ops initSess hg (by decide) (by decide)

/-- Witness for the amended C4 invariant on a concrete bounded sequence. -/
theorem file_position_invariant_amended_witness :
    0 ≤ (runOps [.opSeek 4000 SEEK_SET, .opRead 100, .opWrite (fun _ => 7) 100]).pos ∧
    (runOps [.opSeek 4000 SEEK_SET, .opRead 100, .opWrite (fun _ => 7) 100]).pos ≤
      (CAPACITY : Int) := by
  have h := file_position_invariant_amended
    [.opSeek 4000 SEEK_SET, .opRead 100, .opWrite (fun _ => 7) 100]
  exact ⟨h.1, h.2 (by decide)⟩

/-- **C5**: the open/release state machine.  From `lock = 0` (free) an
open succeeds (returns 0) and the device is held; an open while held
(`lock > 0`) fails with `-EBUSY`, the device stays held and the session's
file position, timing configuration and peripheral state are untouched;
release always returns 0, frees the device, and also touches nothing
else.  Quantifying over every state `s` covers every interleaving of open
and release calls. -/
theorem open_release_state_machine (s : Sess) :
    (s.lock = 0 → (eeprom_open s).2 = 0 ∧ 0 < (eeprom_open s).1.lock) ∧
    (0 < s.lock →
      (eeprom_open s).2 = -EBUSY ∧ 0 < (eeprom_open s).1.lock ∧
      (eeprom_open s).1.pos = s.pos ∧ (eeprom_open s).1.timing = s.timing ∧
      (eeprom_open s).1.pe = s.pe) ∧
    ((eeprom_release s).2 = 0 ∧ (eeprom_release s).1.lock = 0 ∧
      (eeprom_release s).1.pos = s.pos ∧ (eeprom_release s).1.timing = s.timing ∧
      (eeprom_release s).1.pe = s.pe) := by
  have hlock : (eeprom_open s).1.lock = s.lock + 1 := by
    unfold eeprom_open; split <;> rfl
  have hpos : (eeprom_open s).1.pos = s.pos := by
    unfold eeprom_open; split <;> rfl
  have htim : (eeprom_open s).1.timing = s.timing := by
    unfold eeprom_open; split <;> rfl
  have hpe : (eeprom_open s).1.pe = s.pe := by
    unfold eeprom_open; split <;> rfl
  have hret0 : s.lock = 0 → (eeprom_open s).2 = 0 := by
    intro h; unfold eeprom_open; rw [if_neg (by omega)]
  have hretB : 0 < s.lock → (eeprom_open s).2 = -EBUSY := by
    intro h; unfold eeprom_open; rw [if_pos h]
  exact ⟨fun h => ⟨hret0 h, by omega⟩,
         fun h => ⟨hretB h, by omega, hpos, htim, hpe⟩,
         rfl, rfl, rfl, rfl, rfl⟩

/-- Witness for C5: a second open on a freshly opened handle fails
`-EBUSY` and perturbs nothing; after a release, an open succeeds. -/
theorem open_release_state_machine_witness :
    ((eeprom_open initSess).2 = -EBUSY ∧ 0 < (eeprom_open initSess).1.lock ∧
      (eeprom_open initSess).1.pos = initSess.pos ∧
      (eeprom_open initSess).1.timing = initSess.timing ∧
      (eeprom_open initSess).1.pe = initSess.pe) ∧
    ((eeprom_open (eeprom_release initSess).1).2 = 0 ∧
      0 < (eeprom_open (eeprom_release initSess).1).1.lock) :=
  ⟨(open_release_state_machine initSess).2.1 (by decide),
   (open_release_state_machine (eeprom_release initSess).1).1 rfl⟩

/-- **C6**: seek semantics.  `SEEK_SET` targets `offset`, `SEEK_CUR`
targets `pos + offset`, `SEEK_END` targets `C + offset`; an invalid
`whence` fails with `-EINVAL`; a negative target fails with `-EINVAL` and
leaves the position unchanged; otherwise the position is set to the
target and returned; and `seek(SET, k)` followed by `seek(CUR, 0)`
returns `k` for every `0 ≤ k ≤ C`. -/
theorem eeprom_llseek_spec (pos offset whence : Int) :
    (whence = SEEK_SET →
      eeprom_llseek pos offset whence =
        if offset < 0 then (-EINVAL, pos) else (offset, offset)) ∧
    (whence = SEEK_CUR →
      eeprom_llseek pos offset whence =
        if pos + offset < 0 then (-EINVAL, pos)
        else (pos + offset, pos + offset)) ∧
    (whence = SEEK_END →
      eeprom_llseek pos offset whence =
        if (CAPACITY : Int) + offset < 0 then (-EINVAL, pos)
        else ((CAPACITY : Int) + offset, (CAPACITY : Int) + offset)) ∧
    (¬whence = SEEK_SET → ¬whence = SEEK_CUR → ¬whence = SEEK_END →
      eeprom_llseek pos offset whence = (-EINVAL, pos)) ∧
    (∀ k : Int, 0 ≤ k → k ≤ (CAPACITY : Int) →
      eeprom_llseek (eeprom_llseek pos k SEEK_SET).2 0 SEEK_CUR = (k, k)) := by
  refine ⟨?_, ?_, ?_, ?_, ?_⟩
  · intro h
    subst h
    rfl
  · intro h
    subst h
    unfold eeprom_llseek
    norm_num [SEEK_SET, SEEK_CUR]
  · intro h
    subst h
    unfold eeprom_llseek
    norm_num [SEEK_SET, SEEK_CUR, SEEK_END]
  · intro h1 h2 h3
    unfold eeprom_llseek
    rw [if_neg h1, if_neg h2, if_neg h3]
  · intro k hk1 hk2
    rw [eeprom_llseek_set pos k hk1]
    show eeprom_llseek k 0 SEEK_CUR = (k, k)
    unfold eeprom_llseek
    norm_num [SEEK_SET, SEEK_CUR]
    omega

/-- Witness for C6 at concrete inputs: all five branches. -/
theorem eeprom_llseek_spec_witness :
    eeprom_llseek 5 7 SEEK_SET = (7, 7) ∧
    eeprom_llseek 5 7 SEEK_CUR = (12, 12) ∧
    eeprom_llseek 5 (-9) SEEK_CUR = (-EINVAL, 5) ∧
    eeprom_llseek 5 7 SEEK_END = (4039, 4039) ∧
    eeprom_llseek 5 7 9 = (-EINVAL, 5) ∧
    eeprom_llseek (eeprom_llseek 5 100 SEEK_SET).2 0 SEEK_CUR = (100, 100) := by
  have h1 := (eeprom_llseek_spec 5 7 SEEK_SET).1 rfl
  have h2 := (eeprom_llseek_spec 5 7 SEEK_CUR).2.1 rfl
  have h3 := (eeprom_llseek_spec 5 (-9) SEEK_CUR).2.1 rfl
  have h4 := (eeprom_llseek_spec 5 7 SEEK_END).2.2.1 rfl
  have h5 := (eeprom_llseek_spec 5 7 9).2.2.2.1 (by decide) (by decide) (by decide)
  have h6 := (eeprom_llseek_spec 5 0 SEEK_SET).2.2.2.2 100 (by decide) (by decide)
  refine ⟨?_, ?_, ?_, ?_, h5, h6⟩
  · rw [h1]; decide
  · rw [h2]; decide
  · rw [h3]; decide
  · rw [h4]; norm_num [CAPACITY, EEPROM_PAGE_SIZE, EEPROM_PAGE_NUM]

/-- **C7**: for every read or write of `len` bytes at `0 ≤ pos ≤ C`, the
transfer count is `min(len, C − pos)` (hence at most `len`, and the final
position is at most `C`), that count is returned, and the position
afterwards is the position before plus exactly the bytes transferred. -/
theorem eeprom_rw_transfer_count (dev buf wbuf : Nat → Nat) (s : PE_State)
    (len pos : Nat) (h : pos ≤ CAPACITY) :
    ((eeprom_read dev buf len pos).ret = min len (CAPACITY - pos) ∧
     (eeprom_read dev buf len pos).ret ≤ len ∧
     pos + (eeprom_read dev buf len pos).ret ≤ CAPACITY ∧
     (eeprom_read dev buf len pos).pos = pos + (eeprom_read dev buf len pos).ret) ∧
    ((eeprom_write s wbuf len pos).ret = min len (CAPACITY - pos) ∧
     (eeprom_write s wbuf len pos).ret ≤ len ∧
     pos + (eeprom_write s wbuf len pos).ret ≤ CAPACITY ∧
     (eeprom_write s wbuf len pos).pos = pos + (eeprom_write s wbuf len pos).ret) := by
  refine ⟨⟨?_, ?_, ?_, ?_⟩, ⟨?_, ?_, ?_, ?_⟩⟩ <;>
    simp only [eeprom_read_spec dev buf len pos h,
      eeprom_write_spec s wbuf len pos h] <;> omega

/-- Witness for C7: a 100-byte request at position 4000 transfers 32. -/
theorem eeprom_rw_transfer_count_witness :
    ((eeprom_read (fun a => a) (fun _ => 0) 100 4000).ret =
       min 100 (CAPACITY - 4000) ∧
     (eeprom_read (fun a => a) (fun _ => 0) 100 4000).ret ≤ 100 ∧
     4000 + (eeprom_read (fun a => a) (fun _ => 0) 100 4000).ret ≤ CAPACITY ∧
     (eeprom_read (fun a => a) (fun _ => 0) 100 4000).pos =
       4000 + (eeprom_read (fun a => a) (fun _ => 0) 100 4000).ret) ∧
    ((eeprom_write ⟨fun _ => 0, fun _ => 0⟩ (fun _ => 5) 100 4000).ret =
       min 100 (CAPACITY - 4000) ∧
     (eeprom_write ⟨fun _ => 0, fun _ => 0⟩ (fun _ => 5) 100 4000).ret ≤ 100 ∧
     4000 + (eeprom_write ⟨fun _ => 0, fun _ => 0⟩ (fun _ => 5) 100 4000).ret ≤ CAPACITY ∧
     (eeprom_write ⟨fun _ => 0, fun _ => 0⟩ (fun _ => 5) 100 4000).pos =
       4000 + (eeprom_write ⟨fun _ => 0, fun _ => 0⟩ (fun _ => 5) 100 4000).ret) :=
  eeprom_rw_transfer_count (fun a => a) (fun _ => 0) (fun _ => 5)
    ⟨fun _ => 0, fun _ => 0⟩ 100 4000 (by decide)

/-- **C8**: a write of clamped length `len > 0` at `pos` with
`pos + len ≤ C` issues exactly the Page Engine calls of the spec's loop
(`page = pos/64`, `page_offset = pos mod 64`,
`chunk = min(remaining, 64 − page_offset)`, one `write_page_register`
followed by one `erase_program_page`, then advance); consequently the
pages receiving an `ERASE_PROGRAM`, in order, are exactly
`pos/64, pos/64 + 1, ..., (pos+len−1)/64` — each touched page once, in
increasing order. -/
theorem eeprom_write_page_sequence (s : PE_State) (buf : Nat → Nat) (len pos : Nat)
    (h1 : 0 < len) (h2 : pos + len ≤ CAPACITY) :
    (eeprom_write s buf len pos).trace = specWriteTrace pos len ∧
    erasedPages (eeprom_write s buf len pos).trace =
      List.range' (pos / EEPROM_PAGE_SIZE)
        ((pos + len - 1) / EEPROM_PAGE_SIZE + 1 - pos / EEPROM_PAGE_SIZE) := by
  have hp : pos ≤ CAPACITY := by omega
  have hmin : min len (CAPACITY - pos) = len := by omega
  have htr : (eeprom_write s buf len pos).trace = specWriteTrace pos len := by
    simp only [eeprom_write_spec s buf len pos hp, hmin, writeLoop, specWriteTrace]
    exact writeLoopF_trace_spec buf len s 0 pos len (le_refl _) h2
  refine ⟨htr, ?_⟩
  rw [htr]
  simp only [specWriteTrace, EEPROM_PAGE_SIZE]
  exact erasedPages_specWriteTraceF len pos len (le_refl _) h1

/-- Witness for C8: the spec's scenario 3 — an 8-byte write at position
60 splits 4/4 across pages 0 and 1, with erase-programs for pages 0 then
1 exactly once each. -/
theorem eeprom_write_page_sequence_witness :
    (eeprom_write ⟨fun _ => 0, fun _ => 0⟩ (fun j => j) 8 60).trace =
      specWriteTrace 60 8 ∧
    erasedPages (eeprom_write ⟨fun _ => 0, fun _ => 0⟩ (fun j => j) 8 60).trace =
      List.range' (60 / EEPROM_PAGE_SIZE)
        ((60 + 8 - 1) / EEPROM_PAGE_SIZE + 1 - 60 / EEPROM_PAGE_SIZE) :=
  eeprom_write_page_sequence ⟨fun _ => 0, fun _ => 0⟩ (fun j => j) 8 60
    (by decide) (by decide)

/-- **C9**: at initialization with peripheral clock `cclk` Hz (a 32-bit
value of at least 375 kHz, so that the `u32` subtraction in `CLKDIV` does
not wrap), the driver disables power-down, programs
`CLKDIV = cclk/375000 − 1`, and programs
`WSTATE = ws1 | (ws2 << 8) | (ws3 << 16)` with
`ws1 = (cclk/1000000)·15/1000 + 1`, `ws2 = (cclk/1000000)·55/1000 + 1`,
`ws3 = (cclk/1000000)·35/1000 + 1`, all divisions truncating. -/
theorem EEPROM_Init_timing (cclk : Nat) (h32 : cclk < 2 ^ 32)
    (h375 : 375000 ≤ cclk) :
    (EEPROM_Init cclk).pwrdwn = 0 ∧
    (EEPROM_Init cclk).clkdiv = cclk / 375000 - 1 ∧
    (EEPROM_Init cclk).wstate =
      (cclk / 1000000 * 15 / 1000 + 1) |||
        ((cclk / 1000000 * 55 / 1000 + 1) <<< 8) |||
        ((cclk / 1000000 * 35 / 1000 + 1) <<< 16) := by
  have hcd : (EEPROM_Init cclk).clkdiv = cclk / 375000 - 1 := by
    show (cclk / 375000 % 2 ^ 32 + (2 ^ 32 - 1)) % 2 ^ 32 = cclk / 375000 - 1
    omega
  have hws : (EEPROM_Init cclk).wstate =
      (cclk / 1000000 * 15 / 1000 + 1) |||
        ((cclk / 1000000 * 55 / 1000 + 1) <<< 8) |||
        ((cclk / 1000000 * 35 / 1000 + 1) <<< 16) := by
    show ((cclk / 1000000 % 2 ^ 32 * 15 % 2 ^ 32 / 1000 + 1) % 2 ^ 32 |||
          ((cclk / 1000000 % 2 ^ 32 * 55 % 2 ^ 32 / 1000 + 1) % 2 ^ 32) <<< 8 % 2 ^ 32 |||
          ((cclk / 1000000 % 2 ^ 32 * 35 % 2 ^ 32 / 1000 + 1) % 2 ^ 32) <<< 16 % 2 ^ 32) %
        2 ^ 32 =
      (cclk / 1000000 * 15 / 1000 + 1) |||
        ((cclk / 1000000 * 55 / 1000 + 1) <<< 8) |||
        ((cclk / 1000000 * 35 / 1000 + 1) <<< 16)
    have h1 : cclk / 1000000 % 2 ^ 32 = cclk / 1000000 := by omega
    rw [h1]
    have h2 : cclk / 1000000 * 15 % 2 ^ 32 = cclk / 1000000 * 15 := by omega
    have h3 : cclk / 1000000 * 55 % 2 ^ 32 = cclk / 1000000 * 55 := by omega
    have h4 : cclk / 1000000 * 35 % 2 ^ 32 = cclk / 1000000 * 35 := by omega
    rw [h2, h3, h4]
    have h5 : (cclk / 1000000 * 15 / 1000 + 1) % 2 ^ 32 =
        cclk / 1000000 * 15 / 1000 + 1 := by omega
    have h6 : (cclk / 1000000 * 55 / 1000 + 1) % 2 ^ 32 =
        cclk / 1000000 * 55 / 1000 + 1 := by omega
    have h7 : (cclk / 1000000 * 35 / 1000 + 1) % 2 ^ 32 =
        cclk / 1000000 * 35 / 1000 + 1 := by omega
    rw [h5, h6, h7]
    simp only [Nat.shiftLeft_eq]
    have e2 : (cclk / 1000000 * 55 / 1000 + 1) * 2 ^ 8 % 2 ^ 32 =
        (cclk / 1000000 * 55 / 1000 + 1) * 2 ^ 8 := by omega
    have e3 : (cclk / 1000000 * 35 / 1000 + 1) * 2 ^ 16 % 2 ^ 32 =
        (cclk / 1000000 * 35 / 1000 + 1) * 2 ^ 16 := by omega
    rw [e2, e3]
    refine Nat.mod_eq_of_lt (Nat.or_lt_two_pow (Nat.or_lt_two_pow ?_ ?_) ?_)
    · omega
    · omega
    · omega
  exact ⟨rfl, hcd, hws⟩

/-- Witness for C9 at a 60 MHz peripheral clock: `CLKDIV = 159` and
`WSTATE = 1 | (4 << 8) | (3 << 16)`. -/
theorem EEPROM_Init_timing_witness :
    (EEPROM_Init 60000000).pwrdwn = 0 ∧
    (EEPROM_Init 60000000).clkdiv = 60000000 / 375000 - 1 ∧
    (EEPROM_Init 60000000).wstate =
      (60000000 / 1000000 * 15 / 1000 + 1) |||
        ((60000000 / 1000000 * 55 / 1000 + 1) <<< 8) |||
        ((60000000 / 1000000 * 35 / 1000 + 1) <<< 16) :=
  EEPROM_Init_timing 60000000 (by norm_num) (by norm_num)

/-- **C10**: for every read or write request at `0 ≤ pos ≤ C`, every Page
Engine call issued by the stream-translation loops meets the Page Engine
preconditions: page index `< 63`, page offset `< 64`, and
`page_offset + chunk ≤ 64`. -/
theorem page_engine_call_preconditions (dev buf wbuf : Nat → Nat) (s : PE_State)
    (len pos : Nat) (h : pos ≤ CAPACITY) :
    (∀ c ∈ (eeprom_read dev buf len pos).trace, callOK c) ∧
    (∀ c ∈ (eeprom_write s wbuf len pos).trace, callOK c) := by
  constructor
  · intro c hc
    simp only [eeprom_read_spec dev buf len pos h, readLoop] at hc
    exact readLoopF_trace dev _ _ _ _ (le_refl _) (by omega) c hc
  · intro c hc
    simp only [eeprom_write_spec s wbuf len pos h, writeLoop] at hc
    exact writeLoopF_trace_ok wbuf _ _ _ _ _ (le_refl _) (by omega) c hc

/-- Witness for C10: concrete calls of the cross-page request at position
60 satisfy the preconditions. -/
theorem page_engine_call_preconditions_witness :
    callOK (PECall.readPage 0 60 4) ∧ callOK (PECall.writePageReg 60 4) ∧
    callOK (PECall.erasePage 1) := by
  have h := page_engine_call_preconditions (fun a => a) (fun _ => 0) (fun _ => 1)
    ⟨fun _ => 0, fun _ => 0⟩ 8 60 (by decide)
  exact ⟨h.1 _ (by decide), h.2 _ (by decide), h.2 _ (by decide)⟩

end Eeprom
